import Mathlib

/-!
Verification of the lens-system calculator (`src/lens_system_calculator.py`).

Python floating-point values are modelled by `PyF`: exact rationals together
with the two infinities and NaN.  Python's `/` raises `ZeroDivisionError` on a
zero divisor (it never returns an infinity from division by zero), so division
is fallible and returns `Except`.  Signed zeros and rounding are abstracted
away: all claims under examination are about exact algebraic structure,
equality tests (where `-0.0 == 0.0` holds in Python) and the infinity/NaN
policy, none of which distinguish `0.0` from `-0.0`.
-/

deriving instance DecidableEq for Except

/-- Model of a Python numeric value (int or float) as used by the script:
an exact rational, positive infinity, negative infinity, or NaN. -/
inductive PyF where
  | nan : PyF
  | inf : PyF
  | ninf : PyF
  | fin : ℚ → PyF
deriving DecidableEq

/-- Python `==` on numbers: NaN compares unequal to everything. -/
def PyF.beq : PyF → PyF → Bool
  | .nan, _ => false
  | _, .nan => false
  | .inf, .inf => true
  | .ninf, .ninf => true
  | .inf, _ => false
  | _, .inf => false
  | .ninf, _ => false
  | _, .ninf => false
  | .fin a, .fin b => a == b

/-- Python `<` on numbers: NaN compares false against everything. -/
def PyF.lt : PyF → PyF → Bool
  | .nan, _ => false
  | _, .nan => false
  | .ninf, .ninf => false
  | .ninf, _ => true
  | _, .ninf => false
  | .inf, _ => false
  | _, .inf => true
  | .fin a, .fin b => decide (a < b)

/-- Python unary negation. -/
def PyF.neg : PyF → PyF
  | .nan => .nan
  | .inf => .ninf
  | .ninf => .inf
  | .fin a => .fin (-a)

/-- Python `abs`. -/
def PyF.abs : PyF → PyF
  | .nan => .nan
  | .inf => .inf
  | .ninf => .inf
  | .fin a => .fin |a|

/-- Python `+` (IEEE rules: NaN absorbs, `inf + (-inf)` is NaN). -/
def PyF.add : PyF → PyF → PyF
  | .nan, _ => .nan
  | _, .nan => .nan
  | .inf, .ninf => .nan
  | .ninf, .inf => .nan
  | .inf, _ => .inf
  | _, .inf => .inf
  | .ninf, _ => .ninf
  | _, .ninf => .ninf
  | .fin a, .fin b => .fin (a + b)

/-- Python binary `-`. -/
def PyF.sub (a b : PyF) : PyF := a.add b.neg

/-- Python `*` (IEEE rules: NaN absorbs, `inf * 0` is NaN, signs multiply). -/
def PyF.mul : PyF → PyF → PyF
  | .nan, _ => .nan
  | _, .nan => .nan
  | .inf, .inf => .inf
  | .inf, .ninf => .ninf
  | .ninf, .inf => .ninf
  | .ninf, .ninf => .inf
  | .inf, .fin b => if 0 < b then .inf else if b < 0 then .ninf else .nan
  | .fin a, .inf => if 0 < a then .inf else if a < 0 then .ninf else .nan
  | .ninf, .fin b => if 0 < b then .ninf else if b < 0 then .inf else .nan
  | .fin a, .ninf => if 0 < a then .ninf else if a < 0 then .inf else .nan
  | .fin a, .fin b => .fin (a * b)

/-- Errors the Python script can actually raise. -/
inductive PyErr where
  | zeroDivisionError : PyErr
  | indexError : PyErr
  | unboundLocalError : PyErr
deriving DecidableEq

/-- Python `/`: raises `ZeroDivisionError` on a zero divisor, otherwise follows
IEEE rules (NaN absorbs, finite over infinite is zero, infinite over infinite
is NaN). -/
def PyF.div (a b : PyF) : Except PyErr PyF :=
  match a, b with
  | _, .fin q =>
      if q = 0 then .error .zeroDivisionError
      else
        match a with
        | .nan => .ok .nan
        | .inf => .ok (if 0 < q then .inf else .ninf)
        | .ninf => .ok (if 0 < q then .ninf else .inf)
        | .fin p => .ok (.fin (p / q))
  | .nan, _ => .ok .nan
  | _, .nan => .ok .nan
  | .inf, .inf => .ok .nan
  | .inf, .ninf => .ok .nan
  | .ninf, .inf => .ok .nan
  | .ninf, .ninf => .ok .nan
  | .fin _, .inf => .ok (.fin 0)
  | .fin _, .ninf => .ok (.fin 0)

/-- Embedding of `calculate_image_distance(focal_length, object_distance)`:
guard `object_distance == focal_length` returns infinity, guard
`object_distance == 0` returns `0`, otherwise
`1 / (1 / focal_length - 1 / object_distance)`. -/
def calculate_image_distance (focal_length object_distance : PyF) :
    Except PyErr PyF :=
  if object_distance.beq focal_length then .ok .inf
  else if object_distance.beq (.fin 0) then .ok (.fin 0)
  else
    match (PyF.fin 1).div focal_length with
    | .error e => .error e
    | .ok a =>
        match (PyF.fin 1).div object_distance with
        | .error e => .error e
        | .ok b => (PyF.fin 1).div (a.sub b)

/-- Embedding of `calculate_magnification(image_distance, object_distance)`:
guard `image_distance == float('inf')` returns infinity, guard
`object_distance == 0` returns infinity, otherwise
`-image_distance / object_distance`. -/
def calculate_magnification (image_distance object_distance : PyF) :
    Except PyErr PyF :=
  if image_distance.beq .inf then .ok .inf
  else if object_distance.beq (.fin 0) then .ok .inf
  else image_distance.neg.div object_distance

/-- Embedding of `calculate_image_height(object_height, magnification)`. -/
def calculate_image_height (object_height magnification : PyF) : PyF :=
  object_height.mul magnification

/-- Embedding of the `LensResult` record stored for each lens. -/
structure LensResult where
  lens_number : Nat
  focal_length : PyF
  object_distance : PyF
  image_distance : PyF
  magnification : PyF
  cumulative_magnification : PyF
  image_height : PyF
deriving DecidableEq

/-- The `for i, (focal_length, gap) in enumerate(zip(lenses, gaps[1:] + [0]))`
loop of `process_lens_system`, carrying the loop state: current object
distance, current image height, running total magnification, and the
last-assigned `image_distance` (`none` while the variable is still unbound).
Returns the accumulated `results` list together with the final values of
`total_magnification`, `image_distance` and `image_height`. -/
def runStages : List (PyF × PyF) → Nat → PyF → PyF → PyF → Option PyF →
    Except PyErr (List LensResult × PyF × Option PyF × PyF)
  | [], _, _, image_height, total_magnification, image_distance =>
      .ok ([], total_magnification, image_distance, image_height)
  | (focal_length, gap) :: rest, i, object_distance, image_height,
      total_magnification, _ =>
      match calculate_image_distance focal_length object_distance with
      | .error e => .error e
      | .ok image_distance =>
          match calculate_magnification image_distance object_distance with
          | .error e => .error e
          | .ok magnification =>
              let total_magnification := total_magnification.mul magnification
              let image_height := calculate_image_height image_height magnification
              let result : LensResult :=
                ⟨i + 1, focal_length, object_distance, image_distance,
                  magnification, total_magnification, image_height⟩
              match runStages rest (i + 1) (gap.sub image_distance)
                  image_height total_magnification (some image_distance) with
              | .error e => .error e
              | .ok (results, tm, fid, fih) =>
                  .ok (result :: results, tm, fid, fih)

/-- Embedding of `process_lens_system(object_height, lenses, gaps)`.
`gaps[0]` raises `IndexError` on an empty gap list; the loop zips `lenses`
with `gaps[1:] + [0]`; the final `return` raises `UnboundLocalError` when the
loop body never ran (empty `lenses`), since `image_distance` is then unbound. -/
def process_lens_system (object_height : PyF) (lenses gaps : List PyF) :
    Except PyErr (List LensResult × PyF × PyF × PyF) :=
  match gaps with
  | [] => .error .indexError
  | g0 :: gtail =>
      match runStages (lenses.zip (gtail ++ [.fin 0])) 0 g0 object_height
          (.fin 1) none with
      | .error e => .error e
      | .ok (results, total_magnification, some image_distance, image_height) =>
          .ok (results, total_magnification, image_distance, image_height)
      | .ok (_, _, none, _) => .error .unboundLocalError

/-- The value-capping applied inside the sweep loop of
`plot_interactive_heatmap`: `if abs(total_mag) > 1000:
total_mag = 1000 if total_mag > 0 else -1000`. -/
def capMag (total_mag : PyF) : PyF :=
  if (PyF.fin 1000).lt total_mag.abs then
    if (PyF.fin 0).lt total_mag then .fin 1000 else .fin (-1000)
  else total_mag

/-- Inner loop of the sweep in `plot_interactive_heatmap`: for one object
distance, iterate over the gap candidates, build
`gaps = [distance] + [gap] * (num_lenses - 1)`, run the propagator and store
the (capped) total magnification. -/
def sweepRow (object_height : PyF) (lenses : List PyF) (num_lenses : Nat)
    (distance : PyF) : List PyF → Except PyErr (List PyF)
  | [] => .ok []
  | gap :: grest =>
      match process_lens_system object_height lenses
          (distance :: List.replicate (num_lenses - 1) gap) with
      | .error e => .error e
      | .ok (_, total_mag, _, _) =>
          match sweepRow object_height lenses num_lenses distance grest with
          | .error e => .error e
          | .ok row => .ok (capMag total_mag :: row)

/-- The double loop of `plot_interactive_heatmap` that fills
`magnification_matrix`, row-indexed by the distance list and column-indexed by
the gap list, in input order. -/
def magnification_matrix (object_height : PyF) (lenses : List PyF)
    (num_lenses : Nat) : List PyF → List PyF → Except PyErr (List (List PyF))
  | [], _ => .ok []
  | distance :: drest, gaps_list =>
      match sweepRow object_height lenses num_lenses distance gaps_list with
      | .error e => .error e
      | .ok row =>
          match magnification_matrix object_height lenses num_lenses drest
              gaps_list with
          | .error e => .error e
          | .ok rows => .ok (row :: rows)

/-- Chain predicate for the cumulative magnification column: starting from
accumulator `init`, each recorded stage's `cumulative_magnification` is the
previous accumulator times that stage's `magnification`. -/
def cumChain (init : PyF) : List LensResult → Prop
  | [] => True
  | r :: rest => r.cumulative_magnification = init.mul r.magnification ∧
      cumChain r.cumulative_magnification rest

example : process_lens_system (.fin 10) [.fin 25] [.fin 2] =
    .ok ([⟨1, .fin 25, .fin 2, .fin (-50/23), .fin (25/23), .fin (25/23),
      .fin (250/23)⟩], .fin (25/23), .fin (-50/23), .fin (250/23)) := by
  simp only [process_lens_system, runStages, calculate_image_distance,
    calculate_magnification, calculate_image_height, PyF.beq, PyF.div, PyF.sub,
    PyF.add, PyF.neg, PyF.mul, List.zip, List.zipWith, List.append]
  norm_num

/-- Multiplying by the rational one on the right is the identity. -/
theorem PyF.mul_fin_one (x : PyF) : x.mul (.fin 1) = x := by
  cases x <;> simp [PyF.mul]

set_option maxHeartbeats 1000000 in
/-- The modelled Python multiplication is associative: NaN absorbs on both
sides, `inf * 0 = NaN` coheres on both groupings, and signed infinities
multiply by the sign rule. -/
theorem PyF.mulAssoc (a b c : PyF) : (a.mul b).mul c = a.mul (b.mul c) := by
  rcases a with _ | _ | _ | x <;> rcases b with _ | _ | _ | y <;>
      rcases c with _ | _ | _ | z <;>
    simp only [PyF.mul] <;> (try rw [mul_assoc])
  all_goals
    (try rcases lt_trichotomy y 0 with hy | rfl | hy) <;>
    (try rcases lt_trichotomy z 0 with hz | rfl | hz) <;>
    (try rcases lt_trichotomy x 0 with hx | rfl | hx) <;>
    (try simp only [zero_mul, mul_zero]) <;>
    (try split_ifs) <;> (try dsimp only []) <;> (try split_ifs) <;>
    first
      | rfl
      | (exfalso; nlinarith)

/-- Zipping ignores the part of the right list beyond the length of the left
list. -/
theorem zip_append_of_length_eq {α β : Type} :
    ∀ (l : List α) (s extra : List β), l.length = s.length →
      l.zip (s ++ extra) = l.zip s := by
  intro l
  induction l with
  | nil => intro s extra _; simp
  | cons x xs ih =>
      intro s extra hlen
      rcases s with _ | ⟨y, ys⟩
      · simp at hlen
      · simp only [List.cons_append, List.zip_cons_cons]
        rw [ih ys extra (by simpa using hlen)]

/-- The gap stored in the last pair fed to the stage loop is dead: it is only
used to update the object distance after the last stage has been recorded. -/
theorem runStages_zip_last :
    ∀ (t lenses : List PyF) (a b : PyF) (i : Nat) (od ih tm : PyF)
      (lq : Option PyF), t.length + 1 = lenses.length →
      runStages (lenses.zip (t ++ [a])) i od ih tm lq =
        runStages (lenses.zip (t ++ [b])) i od ih tm lq := by
  intro t
  induction t with
  | nil =>
      intro lenses a b i od ih tm lq hlen
      rcases lenses with _ | ⟨f, rest⟩
      · simp at hlen
      · rcases rest with _ | ⟨f2, rest2⟩
        · simp only [List.nil_append, List.zip_cons_cons, List.zip_nil_left]
          cases hq : calculate_image_distance f od with
          | error e => simp only [runStages, hq]
          | ok q =>
              cases hm : calculate_magnification q od with
              | error e => simp only [runStages, hq, hm]
              | ok m => simp only [runStages, hq, hm]
        · simp at hlen
  | cons gp t2 iht =>
      intro lenses a b i od ih tm lq hlen
      rcases lenses with _ | ⟨f, rest⟩
      · simp at hlen
      · simp only [List.cons_append, List.zip_cons_cons]
        cases hq : calculate_image_distance f od with
        | error e => simp only [runStages, hq]
        | ok q =>
            cases hm : calculate_magnification q od with
            | error e => simp only [runStages, hq, hm]
            | ok m =>
                simp only [runStages, hq, hm]
                rw [iht rest a b (i + 1) (gp.sub q)
                  (calculate_image_height ih m) (tm.mul m) (some q)
                  (by simpa using hlen)]

/-- Evaluation of `calculate_image_distance` on finite inputs with a nonzero
focal length: the two guards, then the thin-lens formula. -/
theorem image_distance_fin_eval (c x : ℚ) (hc : c ≠ 0) :
    calculate_image_distance (.fin c) (.fin x) =
      if x = c then .ok .inf
      else if x = 0 then .ok (.fin 0)
      else .ok (.fin (1 / (1 / c - 1 / x))) := by
  by_cases hxc : x = c
  · simp [calculate_image_distance, PyF.beq, hxc]
  · by_cases hx0 : x = 0
    · simp [calculate_image_distance, PyF.beq, hxc, hx0]
    · have hd : 1 / c - 1 / x ≠ 0 := by
        refine sub_ne_zero.mpr (fun h => hxc ?_)
        have hxceq : 1 * x = 1 * c := (div_eq_div_iff hc hx0).mp h
        simpa using hxceq
      have hd2 : c⁻¹ + -x⁻¹ ≠ 0 := by
        simpa [sub_eq_add_neg, one_div] using hd
      simp [calculate_image_distance, PyF.beq, hxc, hx0, PyF.div, PyF.sub,
        PyF.add, PyF.neg, hc, hd2, sub_eq_add_neg]

/-- Evaluation of `calculate_magnification` on finite inputs with a nonzero
object distance. -/
theorem magnification_fin_eval (y x : ℚ) (hx : x ≠ 0) :
    calculate_magnification (.fin y) (.fin x) = .ok (.fin (-y / x)) := by
  simp [calculate_magnification, PyF.beq, hx, PyF.neg, PyF.div]

/-- An infinite image distance short-circuits `calculate_magnification` to
infinity, whatever the object distance is. -/
theorem magnification_inf_eval (od : PyF) :
    calculate_magnification .inf od = .ok .inf := by
  simp [calculate_magnification, PyF.beq]

/-- A zero object distance (with a finite image distance) saturates
`calculate_magnification` to infinity. -/
theorem magnification_fin_zero (y : ℚ) :
    calculate_magnification (.fin y) (.fin 0) = .ok .inf := by
  simp [calculate_magnification, PyF.beq]

/-- `calculate_magnification` never raises: the only division it performs is
guarded by the `object_distance == 0` check. -/
theorem calculate_magnification_ok (q od : PyF) :
    ∃ m, calculate_magnification q od = .ok m := by
  rcases q with _ | _ | _ | y <;> rcases od with _ | _ | _ | x <;>
    simp only [calculate_magnification, PyF.beq, PyF.neg, PyF.div] <;>
    split_ifs <;>
    first
      | exact ⟨_, rfl⟩
      | simp_all

/-- `calculate_image_distance` never raises when the focal length is a nonzero
rational: the `p == f` and `p == 0` guards rule out every zero divisor. -/
theorem calculate_image_distance_ok (c : ℚ) (hc : c ≠ 0) (od : PyF) :
    ∃ q, calculate_image_distance (.fin c) od = .ok q := by
  rcases od with _ | _ | _ | x
  · exact ⟨.nan, by simp [calculate_image_distance, PyF.beq, PyF.div, PyF.sub,
      PyF.add, PyF.neg, hc]⟩
  · exact ⟨.fin c, by simp [calculate_image_distance, PyF.beq, PyF.div,
      PyF.sub, PyF.add, PyF.neg, hc, div_eq_zero_iff]⟩
  · exact ⟨.fin c, by simp [calculate_image_distance, PyF.beq, PyF.div,
      PyF.sub, PyF.add, PyF.neg, hc, div_eq_zero_iff]⟩
  · rw [image_distance_fin_eval c x hc]
    split_ifs <;> exact ⟨_, rfl⟩

/-- The stage loop records cumulative magnifications satisfying `cumChain`
from its incoming accumulator. -/
theorem runStages_cumChain :
    ∀ (pairs : List (PyF × PyF)) (i : Nat) (od h tm : PyF) (lq : Option PyF)
      (rs : List LensResult) (tmf : PyF) (lqf : Option PyF) (ihf : PyF),
      runStages pairs i od h tm lq = .ok (rs, tmf, lqf, ihf) → cumChain tm rs := by
  intro pairs
  induction pairs with
  | nil =>
      intro i od h tm lq rs tmf lqf ihf hok
      simp only [runStages, Except.ok.injEq, Prod.mk.injEq] at hok
      rcases hok with ⟨rfl, _⟩
      trivial
  | cons p rest ihp =>
      rcases p with ⟨f, gp⟩
      intro i od h tm lq rs tmf lqf ihf hok
      cases hq : calculate_image_distance f od with
      | error e => simp [runStages, hq] at hok
      | ok q =>
          simp only [runStages, hq] at hok
          cases hm : calculate_magnification q od with
          | error e => simp [hm] at hok
          | ok m =>
              simp only [hm] at hok
              cases hrec : runStages rest (i + 1) (gp.sub q)
                  (calculate_image_height h m) (tm.mul m) (some q) with
              | error e => simp [hrec] at hok
              | ok out =>
                  rcases out with ⟨results, tm2, lq2, ih2⟩
                  simp only [hrec, Except.ok.injEq, Prod.mk.injEq] at hok
                  rcases hok with ⟨rfl, _⟩
                  exact ⟨rfl, ihp _ _ _ _ _ _ _ _ _ hrec⟩

/-- The stage loop keeps the running image height equal to the original object
height times the running cumulative magnification, hence every recorded stage
satisfies the height law.  Uses associativity of the modelled multiplication. -/
theorem runStages_height :
    ∀ (pairs : List (PyF × PyF)) (i : Nat) (od h tm : PyF) (lq : Option PyF)
      (rs : List LensResult) (tmf : PyF) (lqf : Option PyF) (ihf : PyF)
      (oh : PyF), h = oh.mul tm →
      runStages pairs i od h tm lq = .ok (rs, tmf, lqf, ihf) →
      ∀ r ∈ rs, r.image_height = oh.mul r.cumulative_magnification := by
  intro pairs
  induction pairs with
  | nil =>
      intro i od h tm lq rs tmf lqf ihf oh hinv hok
      simp only [runStages, Except.ok.injEq, Prod.mk.injEq] at hok
      rcases hok with ⟨rfl, _⟩
      intro r hr
      simp at hr
  | cons p rest ihp =>
      rcases p with ⟨f, gp⟩
      intro i od h tm lq rs tmf lqf ihf oh hinv hok
      cases hq : calculate_image_distance f od with
      | error e => simp [runStages, hq] at hok
      | ok q =>
          simp only [runStages, hq] at hok
          cases hm : calculate_magnification q od with
          | error e => simp [hm] at hok
          | ok m =>
              simp only [hm] at hok
              cases hrec : runStages rest (i + 1) (gp.sub q)
                  (calculate_image_height h m) (tm.mul m) (some q) with
              | error e => simp [hrec] at hok
              | ok out =>
                  rcases out with ⟨results, tm2, lq2, ih2⟩
                  simp only [hrec, Except.ok.injEq, Prod.mk.injEq] at hok
                  rcases hok with ⟨rfl, _⟩
                  have hstep : calculate_image_height h m =
                      oh.mul (tm.mul m) := by
                    rw [calculate_image_height, hinv, PyF.mulAssoc]
                  intro r hr
                  rcases List.mem_cons.mp hr with rfl | hmem
                  · exact hstep
                  · exact ihp _ _ _ _ _ _ _ _ _ oh hstep hrec r hmem

/-- Indexed reading of `cumChain`: entry `i`'s cumulative magnification is the
previous entry's cumulative magnification (or the initial accumulator at
`i = 0`) times entry `i`'s own magnification. -/
theorem cumChain_get :
    ∀ (rs : List LensResult) (init : PyF), cumChain init rs →
      ∀ i (hi : i < rs.length),
        (rs.get ⟨i, hi⟩).cumulative_magnification =
          PyF.mul (if i = 0 then init
              else (rs.get ⟨i - 1, by omega⟩).cumulative_magnification)
            ((rs.get ⟨i, hi⟩).magnification) := by
  intro rs
  induction rs with
  | nil => intro init hchain i hi; simp at hi
  | cons r rest ihr =>
      intro init hchain i hi
      rcases hchain with ⟨h1, h2⟩
      cases i with
      | zero => simpa using h1
      | succ j =>
          have hj : j < rest.length := by simpa using hi
          have hrec := ihr r.cumulative_magnification h2 j hj
          cases j with
          | zero => simpa using hrec
          | succ k => simpa using hrec

/-- Closed-form reading of `cumChain`: entry `i`'s cumulative magnification is
the left fold of the modelled multiplication over the magnifications of
entries `0..i`, started at the initial accumulator. -/
theorem cumChain_prod :
    ∀ (rs : List LensResult) (init : PyF), cumChain init rs →
      ∀ i (hi : i < rs.length),
        (rs.get ⟨i, hi⟩).cumulative_magnification =
          ((rs.take (i + 1)).map LensResult.magnification).foldl PyF.mul init := by
  intro rs
  induction rs with
  | nil => intro init hchain i hi; simp at hi
  | cons r rest ihr =>
      intro init hchain i hi
      rcases hchain with ⟨h1, h2⟩
      cases i with
      | zero => simpa using h1
      | succ j =>
          have hj : j < rest.length := by simpa using hi
          have hrec := ihr r.cumulative_magnification h2 j hj
          simpa [h1] using hrec

/-- When every focal length fed to the stage loop is a nonzero rational, the
loop never raises, produces one `LensResult` per pair, and (when at least one
stage ran) leaves the `image_distance` variable bound. -/
theorem runStages_total :
    ∀ (pairs : List (PyF × PyF)),
      (∀ p ∈ pairs, ∃ c : ℚ, p.1 = PyF.fin c ∧ c ≠ 0) →
      ∀ (i : Nat) (od h tm : PyF) (lq : Option PyF),
        ∃ rs tmf lqf ihf,
          runStages pairs i od h tm lq = .ok (rs, tmf, lqf, ihf) ∧
          rs.length = pairs.length ∧
          (pairs = [] → lqf = lq) ∧
          (pairs ≠ [] → ∃ v, lqf = some v) := by
  intro pairs
  induction pairs with
  | nil =>
      intro _ i od h tm lq
      exact ⟨[], tm, lq, h, by simp [runStages], rfl, fun _ => rfl,
        fun hne => absurd rfl hne⟩
  | cons p rest ihp =>
      rcases p with ⟨f, gp⟩
      intro hp i od h tm lq
      obtain ⟨c, hfc, hc0⟩ := hp (f, gp) (List.mem_cons_self _ _)
      obtain ⟨q, hq⟩ := calculate_image_distance_ok c hc0 od
      obtain ⟨m, hm⟩ := calculate_magnification_ok q od
      obtain ⟨rs, tmf, lqf, ihf, hrec, hlen, hnil, hcons⟩ :=
        ihp (fun p2 hmem => hp p2 (List.mem_cons_of_mem _ hmem)) (i + 1)
          (gp.sub q) (calculate_image_height h m) (tm.mul m) (some q)
      refine ⟨⟨i + 1, f, od, q, m, tm.mul m, calculate_image_height h m⟩ :: rs,
        tmf, lqf, ihf, ?_, by simpa using hlen, ?_, ?_⟩
      · have hfc2 : f = PyF.fin c := hfc
        subst hfc2
        simp [runStages, hq, hm, hrec]
      · intro hcontra; simp at hcontra
      · intro _
        by_cases hr : rest = []
        · exact ⟨q, hnil hr⟩
        · exact hcons hr

/-- Appending one extra gap to a gap list whose length already equals the
number of lenses does not change the result of `process_lens_system`. -/
theorem process_snoc_gap (oh : PyF) (lenses : List PyF) (g0 : PyF)
    (t : List PyF) (g : PyF) (hlen : t.length + 1 = lenses.length) :
    process_lens_system oh lenses (g0 :: t) =
      process_lens_system oh lenses (g0 :: (t ++ [g])) := by
  simp only [process_lens_system]
  rw [zip_append_of_length_eq lenses (t ++ [g]) [PyF.fin 0] (by simp; omega)]
  rw [runStages_zip_last t lenses (PyF.fin 0) g 0 g0 oh (PyF.fin 1) none hlen]

/-- Inverting a successful `process_lens_system` call: the gap list is
nonempty and the stage loop succeeded with a bound final image distance. -/
theorem process_lens_system_inversion (oh : PyF) (lenses gaps : List PyF)
    (rs : List LensResult) (tm fq fh : PyF)
    (hok : process_lens_system oh lenses gaps = .ok (rs, tm, fq, fh)) :
    ∃ g0 gtail, gaps = g0 :: gtail ∧
      runStages (lenses.zip (gtail ++ [.fin 0])) 0 g0 oh (.fin 1) none =
        .ok (rs, tm, some fq, fh) := by
  rcases gaps with _ | ⟨g0, gtail⟩
  · simp [process_lens_system] at hok
  · refine ⟨g0, gtail, rfl, ?_⟩
    cases hrun : runStages (lenses.zip (gtail ++ [.fin 0])) 0 g0 oh
        (.fin 1) none with
    | error e => simp [process_lens_system, hrun] at hok
    | ok out =>
        rcases out with ⟨rs2, tm2, lq2, ih2⟩
        rcases lq2 with _ | v
        · simp [process_lens_system, hrun] at hok
        · simp only [process_lens_system, hrun, Except.ok.injEq,
            Prod.mk.injEq] at hok
          rcases hok with ⟨rfl, rfl, rfl, rfl⟩
          rfl

/-- Claim C4: for every non-empty lens sequence and gap sequence of length
`len(lenses) + 1`, in the stage list returned by `process_lens_system` each
stage's cumulative magnification equals the previous stage's cumulative
magnification times that stage's magnification (with the accumulator equal to
`1` before the first stage), and hence equals the fold of the per-stage
magnifications of stages `0..i` starting from `1`. -/
theorem claim_C4_cumulative_law (oh : PyF) (lenses gaps : List PyF)
    (rs : List LensResult) (tm fq fh : PyF)
    (hne : lenses ≠ []) (hlen : gaps.length = lenses.length + 1)
    (hok : process_lens_system oh lenses gaps = .ok (rs, tm, fq, fh)) :
    ∀ i (hi : i < rs.length),
      (rs.get ⟨i, hi⟩).cumulative_magnification =
        PyF.mul (if i = 0 then PyF.fin 1
            else (rs.get ⟨i - 1, by omega⟩).cumulative_magnification)
          ((rs.get ⟨i, hi⟩).magnification) ∧
      (rs.get ⟨i, hi⟩).cumulative_magnification =
        ((rs.take (i + 1)).map LensResult.magnification).foldl PyF.mul
          (PyF.fin 1) := by
  obtain ⟨g0, gtail, hgaps, hrun⟩ :=
    process_lens_system_inversion oh lenses gaps rs tm fq fh hok
  have hchain := runStages_cumChain _ _ _ _ _ _ _ _ _ _ hrun
  exact fun i hi =>
    ⟨cumChain_get rs (.fin 1) hchain i hi,
      cumChain_prod rs (.fin 1) hchain i hi⟩

/-- Witness for C4: a one-lens system with focal length 1, object height 3 and
gaps `[2, 0]`, checked at stage `i = 0`. -/
theorem claim_C4_witness :
    (([⟨1, .fin 1, .fin 2, .fin 2, .fin (-1), .fin (-1), .fin (-3)⟩] :
        List LensResult).get ⟨0, by decide⟩).cumulative_magnification =
      PyF.mul (if (0 : Nat) = 0 then PyF.fin 1
          else (([⟨1, .fin 1, .fin 2, .fin 2, .fin (-1), .fin (-1),
            .fin (-3)⟩] : List LensResult).get
              ⟨0 - 1, by decide⟩).cumulative_magnification)
        ((([⟨1, .fin 1, .fin 2, .fin 2, .fin (-1), .fin (-1), .fin (-3)⟩] :
          List LensResult).get ⟨0, by decide⟩).magnification) ∧
      (([⟨1, .fin 1, .fin 2, .fin 2, .fin (-1), .fin (-1), .fin (-3)⟩] :
          List LensResult).get ⟨0, by decide⟩).cumulative_magnification =
        ((([⟨1, .fin 1, .fin 2, .fin 2, .fin (-1), .fin (-1), .fin (-3)⟩] :
          List LensResult).take (0 + 1)).map LensResult.magnification).foldl
            PyF.mul (PyF.fin 1) :=
  claim_C4_cumulative_law (.fin 3) [.fin 1] [.fin 2, .fin 0]
    [⟨1, .fin 1, .fin 2, .fin 2, .fin (-1), .fin (-1), .fin (-3)⟩]
    (.fin (-1)) (.fin 2) (.fin (-3)) (by simp) (by simp)
    (by
      simp only [process_lens_system, runStages, calculate_image_distance,
        calculate_magnification, calculate_image_height, PyF.beq, PyF.div,
        PyF.sub, PyF.add, PyF.neg, PyF.mul, List.zip, List.zipWith,
        List.append]
      norm_num)
    0 (by decide)

/-- Claim C5: for every non-empty lens sequence and gap sequence of length
`len(lenses) + 1`, each stage's recorded image height equals the initial
object height times that stage's cumulative magnification. -/
theorem claim_C5_height_law (oh : PyF) (lenses gaps : List PyF)
    (rs : List LensResult) (tm fq fh : PyF)
    (hne : lenses ≠ []) (hlen : gaps.length = lenses.length + 1)
    (hok : process_lens_system oh lenses gaps = .ok (rs, tm, fq, fh)) :
    ∀ r ∈ rs, r.image_height = oh.mul r.cumulative_magnification := by
  obtain ⟨g0, gtail, hgaps, hrun⟩ :=
    process_lens_system_inversion oh lenses gaps rs tm fq fh hok
  exact runStages_height _ _ _ _ _ _ _ _ _ _ oh
    (PyF.mul_fin_one oh).symm hrun

/-- Witness for C5: the same one-lens system, checked at its single stage. -/
theorem claim_C5_witness :
    (⟨1, .fin 1, .fin 2, .fin 2, .fin (-1), .fin (-1), .fin (-3)⟩ :
        LensResult).image_height =
      (PyF.fin 3).mul (⟨1, .fin 1, .fin 2, .fin 2, .fin (-1), .fin (-1),
        .fin (-3)⟩ : LensResult).cumulative_magnification :=
  claim_C5_height_law (.fin 3) [.fin 1] [.fin 2, .fin 0]
    [⟨1, .fin 1, .fin 2, .fin 2, .fin (-1), .fin (-1), .fin (-3)⟩]
    (.fin (-1)) (.fin 2) (.fin (-3)) (by simp) (by simp)
    (by
      simp only [process_lens_system, runStages, calculate_image_distance,
        calculate_magnification, calculate_image_height, PyF.beq, PyF.div,
        PyF.sub, PyF.add, PyF.neg, PyF.mul, List.zip, List.zipWith,
        List.append]
      norm_num)
    ⟨1, .fin 1, .fin 2, .fin 2, .fin (-1), .fin (-1), .fin (-3)⟩
    (by simp)

/-- Claim C2: for every rational focal length `f ≠ 0` and object distance `p`,
`calculate_image_distance` returns positive infinity when `p = f`, zero when
`p = 0`, and otherwise `1 / (1 / f - 1 / p)`. -/
theorem claim_C2_image_distance (f p : ℚ) (hf : f ≠ 0) :
    calculate_image_distance (.fin f) (.fin p) =
      if p = f then .ok .inf
      else if p = 0 then .ok (.fin 0)
      else .ok (.fin (1 / (1 / f - 1 / p))) :=
  image_distance_fin_eval f p hf

/-- Witness for C2: evaluated at `f = 25`, `p = 2`. -/
theorem claim_C2_witness :
    calculate_image_distance (.fin 25) (.fin 2) =
      .ok (.fin (1 / (1 / (25 : ℚ) - 1 / 2))) := by
  have h := claim_C2_image_distance 25 2 (by norm_num)
  rw [if_neg (by norm_num), if_neg (by norm_num)] at h
  exact h

/-- Claim C7: `calculate_magnification` returns positive infinity when the
image distance is positive infinity (for any object distance), positive
infinity when the object distance is zero, and otherwise `-q / p`. -/
theorem claim_C7_magnification (q p : ℚ) (hp : p ≠ 0) :
    (∀ od : PyF, calculate_magnification .inf od = .ok .inf) ∧
    calculate_magnification (.fin q) (.fin 0) = .ok .inf ∧
    calculate_magnification (.fin q) (.fin p) = .ok (.fin (-q / p)) :=
  ⟨magnification_inf_eval, magnification_fin_zero q,
    magnification_fin_eval q p hp⟩

/-- Witness for C7: evaluated at `q = 3`, `p = 2` (and object distance 5 for
the infinite-image-distance branch). -/
theorem claim_C7_witness :
    calculate_magnification .inf (.fin 5) = .ok .inf ∧
    calculate_magnification (.fin 3) (.fin 0) = .ok .inf ∧
    calculate_magnification (.fin 3) (.fin 2) = .ok (.fin (-3 / 2)) := by
  have h := claim_C7_magnification 3 2 (by norm_num)
  exact ⟨h.1 (.fin 5), h.2.1, h.2.2⟩

/-- Claim C8: a single lens with focal length 25, object height 10 and gap
sequence `[2]` succeeds, with image distance `1/(1/25 - 1/2) = -50/23 =
-2.1739...`, magnification `-q/p = 25/23 = 1.0869...`, and image height
`250/23 = 10.8695...`. -/
theorem claim_C8_single_lens :
    process_lens_system (.fin 10) [.fin 25] [.fin 2] =
      .ok ([⟨1, .fin 25, .fin 2, .fin (-50/23), .fin (25/23), .fin (25/23),
        .fin (250/23)⟩], .fin (25/23), .fin (-50/23), .fin (250/23)) ∧
    (1 / (1 / (25 : ℚ) - 1 / 2) = -50/23) ∧
    ((-(-50/23) / 2 : ℚ) = 25/23) ∧ ((10 * (25/23) : ℚ) = 250/23) := by
  refine ⟨?_, by norm_num, by norm_num, by norm_num⟩
  simp only [process_lens_system, runStages, calculate_image_distance,
    calculate_magnification, calculate_image_height, PyF.beq, PyF.div, PyF.sub,
    PyF.add, PyF.neg, PyF.mul, List.zip, List.zipWith, List.append]
  norm_num

/-- Claim C10: for a non-empty lens sequence of length `N` and a gap sequence
of length `N`, appending one extra trailing gap (of any value) leaves the
entire result of `process_lens_system` unchanged: the trailing gap is dead. -/
theorem claim_C10_trailing_gap_dead (oh : PyF) (lenses gs : List PyF)
    (g : PyF) (hne : lenses ≠ []) (hlen : gs.length = lenses.length) :
    process_lens_system oh lenses gs =
      process_lens_system oh lenses (gs ++ [g]) := by
  rcases gs with _ | ⟨g0, t⟩
  · exact absurd (List.length_eq_zero.mp hlen.symm) hne
  · exact process_snoc_gap oh lenses g0 t g (by simpa using hlen)

/-- Witness for C10: one lens, gap lists `[2]` and `[2, 7]`. -/
theorem claim_C10_witness :
    process_lens_system (.fin 10) [.fin 25] [.fin 2] =
      process_lens_system (.fin 10) [.fin 25] [.fin 2, .fin 7] :=
  claim_C10_trailing_gap_dead (.fin 10) [.fin 25] [.fin 2] (.fin 7)
    (by simp) (by simp)

/-- Counterexample to C1 as stated: a gap sequence with fewer than
`len(lenses) + 1` elements (here one gap for two lenses) does not make
`process_lens_system` fail at all — it returns a normal result, silently
processing only the first lens. -/
theorem claim_C1_counterexample :
    process_lens_system (.fin 10) [.fin 25, .fin 25] [.fin 2] =
      .ok ([⟨1, .fin 25, .fin 2, .fin (-50/23), .fin (25/23), .fin (25/23),
        .fin (250/23)⟩], .fin (25/23), .fin (-50/23), .fin (250/23)) := by
  simp only [process_lens_system, runStages, calculate_image_distance,
    calculate_magnification, calculate_image_height, PyF.beq, PyF.div, PyF.sub,
    PyF.add, PyF.neg, PyF.mul, List.zip, List.zipWith, List.append]
  norm_num

/-- Amended C1: `process_lens_system` performs no up-front validation and has
no InvalidConfiguration error.  An empty gap sequence raises `IndexError` (at
`gaps[0]`); an empty lens sequence with a nonempty gap sequence runs zero
stages and fails at the final `return` with `UnboundLocalError`; a zero focal
length raises `ZeroDivisionError` inside the propagation stage that uses it;
and a too-short gap sequence raises nothing at all. -/
theorem claim_C1_amended_behavior :
    (∀ (oh : PyF) (lenses : List PyF),
        process_lens_system oh lenses [] = .error .indexError) ∧
    (∀ (oh g : PyF) (gt : List PyF),
        process_lens_system oh [] (g :: gt) = .error .unboundLocalError) ∧
    process_lens_system (.fin 10) [.fin 0] [.fin 2, .fin 0] =
      .error .zeroDivisionError ∧
    (process_lens_system (.fin 10) [.fin 25, .fin 25] [.fin 2]).isOk = true := by
  refine ⟨fun oh lenses => rfl, fun oh g gt => ?_, ?_, ?_⟩
  · simp [process_lens_system, runStages]
  · simp only [process_lens_system, runStages, calculate_image_distance,
      calculate_magnification, calculate_image_height, PyF.beq, PyF.div,
      PyF.sub, PyF.add, PyF.neg, PyF.mul, List.zip, List.zipWith, List.append]
    norm_num
  · simp only [process_lens_system, runStages, calculate_image_distance,
      calculate_magnification, calculate_image_height, PyF.beq, PyF.div,
      PyF.sub, PyF.add, PyF.neg, PyF.mul, List.zip, List.zipWith, List.append]
    norm_num [Except.isOk, Except.toBool]

/-- Counterexample to C9 as stated: with the non-empty lens sequence `[0]` and
non-empty gap sequence `[2]`, `process_lens_system` does raise — the zero
focal length hits the unguarded `1 / focal_length` division. -/
theorem claim_C9_counterexample :
    process_lens_system (.fin 10) [.fin 0] [.fin 2] =
      .error .zeroDivisionError := by
  simp only [process_lens_system, runStages, calculate_image_distance,
    calculate_magnification, calculate_image_height, PyF.beq, PyF.div, PyF.sub,
    PyF.add, PyF.neg, PyF.mul, List.zip, List.zipWith, List.append]
  norm_num

/-- Amended C9: for every non-empty lens sequence of nonzero rational focal
lengths and every non-empty gap sequence, `process_lens_system` returns
normally with exactly `min(len(lenses), len(gaps))` stage records — in
particular a too-short gap sequence silently truncates the lens system. -/
theorem claim_C9_amended_totality (oh : PyF) (lenses : List ℚ)
    (gaps : List PyF) (hne : lenses ≠ []) (hgne : gaps ≠ [])
    (hnz : ∀ c ∈ lenses, c ≠ 0) :
    ∃ rs tm q h,
      process_lens_system oh (lenses.map PyF.fin) gaps = .ok (rs, tm, q, h) ∧
      rs.length = min lenses.length gaps.length := by
  rcases gaps with _ | ⟨g0, gtail⟩
  · exact absurd rfl hgne
  · have hp : ∀ p ∈ (lenses.map PyF.fin).zip (gtail ++ [PyF.fin 0]),
        ∃ c : ℚ, p.1 = PyF.fin c ∧ c ≠ 0 := by
      intro p hmem
      obtain ⟨h1, _⟩ := List.of_mem_zip hmem
      obtain ⟨c, hc, hceq⟩ := List.mem_map.mp h1
      exact ⟨c, hceq.symm, hnz c hc⟩
    obtain ⟨rs, tmf, lqf, ihf, hrun, hlen, hnil, hcons⟩ :=
      runStages_total _ hp 0 g0 oh (.fin 1) none
    have hlpos : 0 < lenses.length := List.length_pos.mpr hne
    have hpairs_ne : (lenses.map PyF.fin).zip (gtail ++ [PyF.fin 0]) ≠ [] := by
      apply List.ne_nil_of_length_pos
      rw [List.length_zip]
      simp only [List.length_map, List.length_append, List.length_singleton]
      omega
    obtain ⟨v, hv⟩ := hcons hpairs_ne
    rw [hv] at hrun
    refine ⟨rs, tmf, v, ihf, ?_, ?_⟩
    · simp [process_lens_system, hrun]
    · rw [hlen, List.length_zip]
      simp

/-- Witness for amended C9: one nonzero lens, three gaps, one stage record. -/
theorem claim_C9_witness :
    ∃ rs tm q h,
      process_lens_system (.fin 10) (([25] : List ℚ).map PyF.fin)
          [.fin 2, .fin 3, .fin 4] = .ok (rs, tm, q, h) ∧
      rs.length = min ([25] : List ℚ).length
        ([PyF.fin 2, .fin 3, .fin 4] : List PyF).length :=
  claim_C9_amended_totality (.fin 10) [25] [.fin 2, .fin 3, .fin 4]
    (by simp) (by simp)
    (by intro c hc; rw [List.mem_singleton] at hc; subst hc; norm_num)

/-- Reading one cell out of a successful `sweepRow`: entry `j` is the capped
total magnification of the propagator run on
`[distance] + [gap_j] * (num_lenses - 1)`. -/
theorem sweepRow_cell :
    ∀ (glist : List PyF) (oh : PyF) (lenses : List PyF) (nl : Nat) (d : PyF)
      (row : List PyF), sweepRow oh lenses nl d glist = .ok row →
      ∀ j g, glist.get? j = some g →
        ∃ rs2 tm2 q2 h2,
          process_lens_system oh lenses (d :: List.replicate (nl - 1) g) =
            .ok (rs2, tm2, q2, h2) ∧ row.get? j = some (capMag tm2) := by
  intro glist
  induction glist with
  | nil => intro oh lenses nl d row hok j g hj; simp at hj
  | cons gap grest ihg =>
      intro oh lenses nl d row hok j g hj
      cases hproc : process_lens_system oh lenses
          (d :: List.replicate (nl - 1) gap) with
      | error e => simp [sweepRow, hproc] at hok
      | ok out =>
          rcases out with ⟨rs2, tm2, q2, h2⟩
          cases hrow : sweepRow oh lenses nl d grest with
          | error e => simp [sweepRow, hproc, hrow] at hok
          | ok row2 =>
              simp only [sweepRow, hproc, hrow, Except.ok.injEq] at hok
              subst hok
              cases j with
              | zero =>
                  simp only [List.get?_cons_zero, Option.some.injEq] at hj
                  subst hj
                  exact ⟨rs2, tm2, q2, h2, hproc, rfl⟩
              | succ j2 =>
                  simp only [List.get?_cons_succ] at hj
                  obtain ⟨rs3, tm3, q3, h3, hproc3, hcell⟩ :=
                    ihg oh lenses nl d row2 hrow j2 g hj
                  exact ⟨rs3, tm3, q3, h3, hproc3, hcell⟩

/-- Reading one row out of a successful `magnification_matrix` run: row `i` is
the sweep row of distance `i`. -/
theorem magnification_matrix_row :
    ∀ (dlist : List PyF) (oh : PyF) (lenses : List PyF) (nl : Nat)
      (glist : List PyF) (m : List (List PyF)),
      magnification_matrix oh lenses nl dlist glist = .ok m →
      ∀ i d, dlist.get? i = some d →
        ∃ row, m.get? i = some row ∧ sweepRow oh lenses nl d glist = .ok row := by
  intro dlist
  induction dlist with
  | nil => intro oh lenses nl glist m hok i d hi; simp at hi
  | cons d0 drest ihd =>
      intro oh lenses nl glist m hok i d hi
      cases hrow : sweepRow oh lenses nl d0 glist with
      | error e => simp [magnification_matrix, hrow] at hok
      | ok row =>
          cases hrest : magnification_matrix oh lenses nl drest glist with
          | error e => simp [magnification_matrix, hrow, hrest] at hok
          | ok rows =>
              simp only [magnification_matrix, hrow, hrest,
                Except.ok.injEq] at hok
              subst hok
              cases i with
              | zero =>
                  simp only [List.get?_cons_zero, Option.some.injEq] at hi
                  subst hi
                  exact ⟨row, rfl, hrow⟩
              | succ i2 =>
                  simp only [List.get?_cons_succ] at hi
                  exact ihd oh lenses nl glist rows hrest i2 d hi

/-- Counterexample to C3 as stated: for the single lens `f = 25`, object
height 10, distance list `[25]` and gap list `[1]`, the stored grid cell is
the capped value `1000`, while the direct `process_lens_system` call on the
length-`len(lenses)+1` gap sequence `[25, 1]` yields total magnification
`inf`; the cell does not equal the direct total magnification. -/
theorem claim_C3_counterexample :
    magnification_matrix (.fin 10) [.fin 25] 1 [.fin 25] [.fin 1] =
      .ok [[.fin 1000]] ∧
    process_lens_system (.fin 10) [.fin 25] [.fin 25, .fin 1] =
      .ok ([⟨1, .fin 25, .fin 25, .inf, .inf, .inf, .inf⟩], .inf, .inf,
        .inf) ∧
    PyF.fin 1000 ≠ PyF.inf := by
  refine ⟨?_, ?_, by simp⟩
  · simp only [magnification_matrix, sweepRow, capMag, process_lens_system,
      runStages, calculate_image_distance, calculate_magnification,
      calculate_image_height, PyF.beq, PyF.lt, PyF.abs, PyF.div, PyF.sub,
      PyF.add, PyF.neg, PyF.mul, List.zip, List.zipWith, List.append,
      List.replicate]
    norm_num
  · simp only [process_lens_system, runStages, calculate_image_distance,
      calculate_magnification, calculate_image_height, PyF.beq, PyF.div,
      PyF.sub, PyF.add, PyF.neg, PyF.mul, List.zip, List.zipWith, List.append]
    norm_num

/-- Amended C3: every cell `(i, j)` of the sweep grid equals `capMag` applied
to the total magnification of the direct `process_lens_system` call on the
gap sequence `[distance_list[i]] ++ [gap_list[j]] * len(lenses)` (of length
`len(lenses) + 1`; by the dead-trailing-gap property this call agrees with
the length-`len(lenses)` sequence the sweep itself builds), cells being
indexed in input order.  The capping of magnitudes above 1000 is the only
divergence from the claim. -/
theorem claim_C3_amended_grid (oh : PyF) (lenses : List PyF)
    (dlist glist : List PyF) (m : List (List PyF)) (i j : Nat) (d g : PyF)
    (rs : List LensResult) (tm q h : PyF) (hne : lenses ≠ [])
    (hm : magnification_matrix oh lenses lenses.length dlist glist = .ok m)
    (hd : dlist.get? i = some d) (hg : glist.get? j = some g)
    (hp : process_lens_system oh lenses
      (d :: List.replicate lenses.length g) = .ok (rs, tm, q, h)) :
    ∃ row, m.get? i = some row ∧ row.get? j = some (capMag tm) := by
  have hlpos : 0 < lenses.length := List.length_pos.mpr hne
  have hlenrep :
      (List.replicate (lenses.length - 1) g).length + 1 = lenses.length := by
    simp only [List.length_replicate]
    omega
  have hsnoc := process_snoc_gap oh lenses d
    (List.replicate (lenses.length - 1) g) g hlenrep
  have hrep : List.replicate (lenses.length - 1) g ++ [g] =
      List.replicate lenses.length g := by
    rw [← List.replicate_succ']
    congr 1
    omega
  rw [hrep] at hsnoc
  obtain ⟨row, hrow, hsweep⟩ :=
    magnification_matrix_row dlist oh lenses lenses.length glist m hm i d hd
  obtain ⟨rs2, tm2, q2, h2, hp2, hcell⟩ :=
    sweepRow_cell glist oh lenses lenses.length d row hsweep j g hg
  rw [hsnoc, hp] at hp2
  simp only [Except.ok.injEq, Prod.mk.injEq] at hp2
  rcases hp2 with ⟨rfl, rfl, rfl, rfl⟩
  exact ⟨row, hrow, hcell⟩

/-- Witness for amended C3: lens `[25]`, distance list `[2]`, gap list `[3]`;
the single cell holds `capMag (25/23)` and the direct call on `[2, 3]` yields
total magnification `25/23`. -/
theorem claim_C3_witness :
    ∃ row, ([[PyF.fin (25/23)]] : List (List PyF)).get? 0 = some row ∧
      row.get? 0 = some (capMag (.fin (25/23))) :=
  claim_C3_amended_grid (.fin 10) [.fin 25] [.fin 2] [.fin 3]
    [[.fin (25/23)]] 0 0 (.fin 2) (.fin 3)
    [⟨1, .fin 25, .fin 2, .fin (-50/23), .fin (25/23), .fin (25/23),
      .fin (250/23)⟩] (.fin (25/23)) (.fin (-50/23)) (.fin (250/23))
    (by simp)
    (by
      simp only [magnification_matrix, sweepRow, capMag, process_lens_system,
        runStages, calculate_image_distance, calculate_magnification,
        calculate_image_height, PyF.beq, PyF.lt, PyF.abs, PyF.div, PyF.sub,
        PyF.add, PyF.neg, PyF.mul, List.zip, List.zipWith, List.append,
        List.replicate, List.length_cons, List.length_nil]
      norm_num [abs_le])
    rfl rfl
    (by
      simp only [process_lens_system, runStages, calculate_image_distance,
        calculate_magnification, calculate_image_height, PyF.beq, PyF.div,
        PyF.sub, PyF.add, PyF.neg, PyF.mul, List.zip, List.zipWith,
        List.append, List.length_cons, List.length_nil, List.replicate]
      norm_num)

/-- Counterexample to C6 as stated: the sweep loop does not store the raw
propagator value.  For lens `[50]`, object height 1, distance 50 and gap 1,
the propagator produces total magnification `inf`, but the stored grid cell
is the saturated `1000`. -/
theorem claim_C6_counterexample :
    magnification_matrix (.fin 1) [.fin 50] 1 [.fin 50] [.fin 1] =
      .ok [[.fin 1000]] ∧
    process_lens_system (.fin 1) [.fin 50] [.fin 50] =
      .ok ([⟨1, .fin 50, .fin 50, .inf, .inf, .inf, .inf⟩], .inf, .inf,
        .inf) ∧
    PyF.fin 1000 ≠ PyF.inf := by
  refine ⟨?_, ?_, by simp⟩
  · simp only [magnification_matrix, sweepRow, capMag, process_lens_system,
      runStages, calculate_image_distance, calculate_magnification,
      calculate_image_height, PyF.beq, PyF.lt, PyF.abs, PyF.div, PyF.sub,
      PyF.add, PyF.neg, PyF.mul, List.zip, List.zipWith, List.append,
      List.replicate]
    norm_num
  · simp only [process_lens_system, runStages, calculate_image_distance,
      calculate_magnification, calculate_image_height, PyF.beq, PyF.div,
      PyF.sub, PyF.add, PyF.neg, PyF.mul, List.zip, List.zipWith, List.append]
    norm_num

/-- Amended C6: every cell the sweep loop stores is `capMag` of the raw total
magnification computed by the propagator for that `(distance, gap)` pair —
values of magnitude above 1000 are saturated to `±1000` inside the analyzer
loop itself (in particular a true infinity is stored as `1000`), not in a
separate presentation layer. -/
theorem claim_C6_amended_capping (oh : PyF) (lenses : List PyF) (nl : Nat)
    (dlist glist : List PyF) (m : List (List PyF)) (i j : Nat) (d g : PyF)
    (rs : List LensResult) (tm q h : PyF)
    (hm : magnification_matrix oh lenses nl dlist glist = .ok m)
    (hd : dlist.get? i = some d) (hg : glist.get? j = some g)
    (hp : process_lens_system oh lenses (d :: List.replicate (nl - 1) g) =
      .ok (rs, tm, q, h)) :
    ∃ row, m.get? i = some row ∧ row.get? j = some (capMag tm) ∧
      (tm = .inf → row.get? j = some (.fin 1000)) := by
  obtain ⟨row, hrow, hsweep⟩ :=
    magnification_matrix_row dlist oh lenses nl glist m hm i d hd
  obtain ⟨rs2, tm2, q2, h2, hp2, hcell⟩ :=
    sweepRow_cell glist oh lenses nl d row hsweep j g hg
  rw [hp] at hp2
  simp only [Except.ok.injEq, Prod.mk.injEq] at hp2
  rcases hp2 with ⟨rfl, rfl, rfl, rfl⟩
  refine ⟨row, hrow, hcell, fun htm => ?_⟩
  rw [htm] at hcell
  exact hcell

/-- Witness for amended C6: lens `[50]`, distance `[2]`, gap `[5]`; the cell
holds `capMag (25/24)` (uncapped, since `25/24` is small). -/
theorem claim_C6_witness :
    ∃ row, ([[PyF.fin (25/24)]] : List (List PyF)).get? 0 = some row ∧
      row.get? 0 = some (capMag (.fin (25/24))) ∧
      (PyF.fin (25/24) = PyF.inf → row.get? 0 = some (.fin 1000)) :=
  claim_C6_amended_capping (.fin 1) [.fin 50] 1 [.fin 2] [.fin 5]
    [[.fin (25/24)]] 0 0 (.fin 2) (.fin 5)
    [⟨1, .fin 50, .fin 2, .fin (-25/12), .fin (25/24), .fin (25/24),
      .fin (25/24)⟩] (.fin (25/24)) (.fin (-25/12)) (.fin (25/24))
    (by
      simp only [magnification_matrix, sweepRow, capMag, process_lens_system,
        runStages, calculate_image_distance, calculate_magnification,
        calculate_image_height, PyF.beq, PyF.lt, PyF.abs, PyF.div, PyF.sub,
        PyF.add, PyF.neg, PyF.mul, List.zip, List.zipWith, List.append,
        List.replicate]
      norm_num [abs_le])
    rfl rfl
    (by
      simp only [process_lens_system, runStages, calculate_image_distance,
        calculate_magnification, calculate_image_height, PyF.beq, PyF.div,
        PyF.sub, PyF.add, PyF.neg, PyF.mul, List.zip, List.zipWith,
        List.append, List.replicate]
      norm_num)
